import Mathlib

/-!
Shallow embedding of the osu_practice terminal rhythm-input program
(src/main.rs) and proofs of the specified properties.

Modelling conventions:
* Timestamps (std::time::Instant) and durations are modelled as rationals
  measured in seconds.  All thresholds in the program (1.0 s for the combo
  timeout, 0.01 s for the average branch) and all inputs appearing in the
  properties are exactly representable, and no property sits at a
  float-rounding boundary, so the f32/f64 arithmetic of the source agrees
  with the rational model on everything stated here.
* Instant::duration_since saturates at zero when its argument is later; for
  the strict comparisons performed by the program (gap > 1.0, deltas inside
  a chronologically ordered window) plain rational subtraction gives the
  same results, so subtraction is used directly.
* The u32/u64 counters of Stats are modelled as naturals: in the default
  (overflow-checked) build of the source an overflowing += aborts the
  process instead of producing a wrapped value, so no reachable state holds
  a wrapped counter.
-/

/-- Timestamps (std::time::Instant) measured in seconds. -/
abbrev Time := ℚ

/-- The Stats resource of main.rs: total and combo are u32, score is u64. -/
structure Stats where
  total : Nat
  combo : Nat
  score : Nat
deriving DecidableEq

/-- The Default instance of Stats: all counters zero. -/
def Stats.init : Stats := ⟨0, 0, 0⟩

/-- Modelled from the spec: the TimestampWindow is the CircularBuffer of
the amethyst crate, which is outside src/.  Spec section 4.1: an ordered
sequence with a fixed capacity; push appends and, if the length already
equals the capacity, evicts the earliest entry before appending.  The queue
is kept in insertion (chronological) order, earliest first. -/
structure CircularBuffer (α : Type) where
  cap : Nat
  queue : List α
deriving DecidableEq

/-- Construction CircularBuffer::new(cap): an empty buffer of the given
capacity. -/
def CircularBuffer.new {α : Type} (cap : Nat) : CircularBuffer α := ⟨cap, []⟩

/-- Operation CircularBuffer::push: append, evicting the front entry when
the buffer is at capacity. -/
def CircularBuffer.push {α : Type} (b : CircularBuffer α) (x : α) : CircularBuffer α :=
  if b.queue.length = b.cap then ⟨b.cap, b.queue.tail ++ [x]⟩
  else ⟨b.cap, b.queue ++ [x]⟩

/-- A sequence of pushes, earliest first. -/
def CircularBuffer.pushAll {α : Type} (b : CircularBuffer α) (xs : List α) : CircularBuffer α :=
  xs.foldl CircularBuffer.push b

/-- The mutable state touched by the aggregation stage (OsuInputSystem):
the Stats resource and the CircularBuffer of Instants. -/
structure AggState where
  stats : Stats
  buf : CircularBuffer Time
deriving DecidableEq

/-- The state installed by InitState::on_start together with the Default
instance of Stats: zeroed stats and an empty window of capacity 8. -/
def AggState.init : AggState := ⟨Stats.init, CircularBuffer.new 8⟩

/-- Handling of one InputEvent::Input by the loop body of
OsuInputSystem::run (main.rs lines 133-146), with now the value of
Instant::now() while the event is processed:
stats.total += 1; if the back entry of the window exists and lies more
than 1.0 s before now, stats.combo = 0; buf.push(now); stats.combo += 1;
stats.score += stats.combo. -/
def onEvent (s : AggState) (now : Time) : AggState :=
  let total := s.stats.total + 1
  let combo0 :=
    match s.buf.queue.getLast? with
    | some delay => if 1 < now - delay then 0 else s.stats.combo
    | none => s.stats.combo
  let buf := s.buf.push now
  let combo := combo0 + 1
  let score := s.stats.score + combo
  ⟨⟨total, combo, score⟩, buf⟩

/-- Aggregation of a sequence of Press events given by their processing
times, earliest first. -/
def runEvents (s : AggState) (ts : List Time) : AggState :=
  ts.foldl onEvent s

/-- The semantic event type of main.rs (InputEvent), one variant. -/
inductive InputEvent where
  | Input
deriving DecidableEq

/-- Raw terminal keys (easycurses::Input): a printable character or some
other key (function keys and the like), which the default keymap never
maps. -/
inductive RawInput where
  | Character (c : Char)
  | Special (code : Nat)
deriving DecidableEq

/-- The Keymap resource: a finite map from raw keys to semantic events,
modelled as an association list (first match wins, as in a HashMap whose
keys are distinct). -/
structure Keymap where
  map : List (RawInput × InputEvent)
deriving DecidableEq

/-- The Default keymap: the characters x and b both map to
InputEvent::Input. -/
def Keymap.init : Keymap :=
  ⟨[(RawInput.Character 'x', InputEvent.Input),
    (RawInput.Character 'b', InputEvent.Input)]⟩

/-- Lookup keymap.map.get(&input): find the raw key in the keymap. -/
def Keymap.get (km : Keymap) (i : RawInput) : Option InputEvent :=
  (km.map.find? fun p => decide (p.1 = i)).map Prod.snd

/-- Stage CursesInputSystem::run for one tick: the raw keys drained from
the terminal, in arrival order, are looked up in the keymap; unmapped keys
are discarded, mapped keys are published to the event channel in order. -/
def captureStage (km : Keymap) (raws : List RawInput) : List InputEvent :=
  raws.filterMap km.get

/-- The published events of a tick paired with the times at which the
aggregation stage processes them later in the same tick. -/
def publishTimed (km : Keymap) (inputs : List (RawInput × Time)) : List (InputEvent × Time) :=
  inputs.filterMap fun p => (km.get p.1).map fun e => (e, p.2)

/-- One rendered frame of CursesRenderSystem::run when the window is
non-empty: the printed numeric values, top to bottom. -/
structure FrameLines where
  avg : ℚ
  kps : ℚ
  bpm : ℚ
  total : Nat
  combo : Nat
  score : Nat
deriving DecidableEq

/-- Stage CursesRenderSystem::run (main.rs lines 41-75) after the screen
clear: if the window has a front timestamp, sum the distances of every
later retained timestamp from the front (iter().skip(1)), divide by
(len - 1) only when that raw sum exceeds 0.01, and print avg, KPS (1/avg),
BPM (1/avg * 60) and the three Stats fields; if the window is empty,
nothing is printed besides the cleared grid (none).  The value 1/avg at
avg = 0 is the degenerate display value of spec section 7; the f64
infinity there is modelled by the total rational division. -/
def render (buf : CircularBuffer Time) (stats : Stats) : Option FrameLines :=
  match buf.queue with
  | [] => none
  | start :: rest =>
    let s : ℚ := (((start :: rest).drop 1).map fun e => e - start).sum
    let avg : ℚ := if 1/100 < s then s / (((start :: rest).length - 1 : ℕ) : ℚ) else s
    some ⟨avg, 1 / avg, 1 / avg * 60, stats.total, stats.combo, stats.score⟩

/-- The full per-tick mutable state: the event channel (all events ever
written, with the model time at which each is aggregated), the reader
cursor of OsuInputSystem (none until its first run), and the aggregation
state. -/
structure World where
  channel : List (InputEvent × Time)
  reader : Option Nat
  agg : AggState
deriving DecidableEq

/-- The state at startup: empty channel, unregistered reader, zeroed stats
and an empty capacity-8 window. -/
def World.init : World := ⟨[], none, AggState.init⟩

/-- Modelled from the spec: the TickScheduler is the amethyst dispatcher,
outside src/.  Spec section 4.5 fixes the per-tick order declared in main
(main.rs lines 181-184): CursesInputSystem, then OsuInputSystem, then
CursesRenderSystem.  The event channel follows the documented shrev
contract: a reader receives only events written after its registration, and
OsuInputSystem registers its reader lazily at the start of its first run
(main.rs lines 129-131), which happens after CursesInputSystem has already
written the events of that same tick. -/
def tick (km : Keymap) (inputs : List (RawInput × Time)) (w : World) :
    World × Option FrameLines :=
  let channel := w.channel ++ publishTimed km inputs
  let r :=
    match w.reader with
    | some r => r
    | none => channel.length
  let toRead := channel.drop r
  let agg := toRead.foldl (fun st p => onEvent st p.2) w.agg
  (⟨channel, some channel.length, agg⟩, render agg.buf agg.stats)

/-- Predicate: the combo-timeout condition of OsuInputSystem::run fires for
an event at time now in state s, that is, the window has a back entry more
than 1.0 s older than now. -/
def timedOut (s : AggState) (now : Time) : Prop :=
  ∃ delay, s.buf.queue.getLast? = some delay ∧ 1 < now - delay

/- ------------------------------------------------------------------ -/
/- Helper lemmas                                                      -/
/- ------------------------------------------------------------------ -/

/-- A push on a capacity-8 buffer keeps the last eight entries of the
extended queue. -/
theorem push_queue_eq (q : List Time) (x : Time) (h : q.length ≤ 8) :
    CircularBuffer.push ⟨8, q⟩ x = ⟨8, (q ++ [x]).drop (q.length + 1 - 8)⟩ := by
  unfold CircularBuffer.push
  split_ifs with hc
  · have h8 : q.length = 8 := hc
    have hd : q.length + 1 - 8 = 1 := by omega
    rw [hd, List.drop_append_of_le_length (by omega), List.drop_one]
  · have h8 : q.length ≠ 8 := hc
    have hd : q.length + 1 - 8 = 0 := by omega
    rw [hd, List.drop_zero]

/-- The queue after any sequence of pushes on a capacity-8 buffer is the
suffix of the last eight (or fewer) entries, in insertion order. -/
theorem pushAll_queue (ts : List Time) : ∀ q : List Time, q.length ≤ 8 →
    (CircularBuffer.pushAll ⟨8, q⟩ ts).queue = (q ++ ts).drop ((q ++ ts).length - 8) := by
  induction ts with
  | nil =>
    intro q h
    have h0 : q.length - 8 = 0 := by omega
    simp [CircularBuffer.pushAll, h0]
  | cons x ts ih =>
    intro q h
    have hstep : CircularBuffer.pushAll ⟨8, q⟩ (x :: ts)
        = CircularBuffer.pushAll (CircularBuffer.push ⟨8, q⟩ x) ts := rfl
    rw [hstep, push_queue_eq q x h]
    have hlen : ((q ++ [x]).drop (q.length + 1 - 8)).length ≤ 8 := by
      simp [List.length_drop]
      omega
    rw [ih _ hlen]
    rw [← @List.drop_append_of_le_length Time (q ++ [x]) ts (q.length + 1 - 8)
      (by simp; omega)]
    rw [List.drop_drop]
    have hassoc : (q ++ [x]) ++ ts = q ++ x :: ts := by simp
    rw [hassoc]
    congr 1
    simp [List.length_drop, List.length_append]
    omega

/-- Per-event effect of the aggregation step on the stats fields. -/
theorem onEvent_stats (s : AggState) (t : Time) :
    (onEvent s t).stats.total = s.stats.total + 1 ∧
    ((onEvent s t).stats.combo = 1 ∨ (onEvent s t).stats.combo = s.stats.combo + 1) ∧
    (onEvent s t).stats.score = s.stats.score + (onEvent s t).stats.combo ∧
    1 ≤ (onEvent s t).stats.combo := by
  unfold onEvent
  cases hq : s.buf.queue.getLast? with
  | none => simp
  | some d =>
    by_cases hgap : (1 : ℚ) < t - d
    · simp [hgap]
    · simp [hgap]

/-- The stats invariant combo ≤ total ≤ score is preserved by any run of
the aggregator. -/
theorem runEvents_invariant (ts : List Time) : ∀ s : AggState,
    s.stats.combo ≤ s.stats.total → s.stats.total ≤ s.stats.score →
    (runEvents s ts).stats.combo ≤ (runEvents s ts).stats.total ∧
    (runEvents s ts).stats.total ≤ (runEvents s ts).stats.score := by
  induction ts with
  | nil => intro s h1 h2; exact ⟨h1, h2⟩
  | cons t ts ih =>
    intro s h1 h2
    have hrun : runEvents s (t :: ts) = runEvents (onEvent s t) ts := rfl
    rw [hrun]
    obtain ⟨htot, hcombo, hscore, hpos⟩ := onEvent_stats s t
    refine ih _ ?_ ?_
    · rcases hcombo with h | h <;> omega
    · omega

/- ------------------------------------------------------------------ -/
/- Claims                                                             -/
/- ------------------------------------------------------------------ -/

/-- C1: for every sequence of pushes on the capacity-8 window, the window
holds the at most eight most recently pushed timestamps in insertion
(chronological) order, hence never more than eight entries; pushing a
ninth timestamp evicts the first, leaving exactly timestamps two through
nine. -/
theorem C1_window_fifo (ts : List Time) :
    (CircularBuffer.pushAll (CircularBuffer.new 8) ts).queue
      = ts.drop (ts.length - 8) ∧
    (CircularBuffer.pushAll (CircularBuffer.new 8) ts).queue.length ≤ 8 ∧
    ∀ t1 t2 t3 t4 t5 t6 t7 t8 t9 : Time,
      (CircularBuffer.pushAll (CircularBuffer.new 8)
          [t1, t2, t3, t4, t5, t6, t7, t8, t9]).queue
        = [t2, t3, t4, t5, t6, t7, t8, t9] := by
  have hmain := pushAll_queue ts [] (by simp)
  simp only [List.nil_append] at hmain
  refine ⟨hmain, ?_, ?_⟩
  · rw [show CircularBuffer.new 8 = (⟨8, []⟩ : CircularBuffer Time) from rfl] at *
    rw [hmain]
    simp [List.length_drop]
    omega
  · intro t1 t2 t3 t4 t5 t6 t7 t8 t9
    have h9 := pushAll_queue [t1, t2, t3, t4, t5, t6, t7, t8, t9] [] (by simp)
    simpa using h9

/-- C2: with Press events at 0 s, 0.3 s and 1.5 s, the 1.2 s gap before
the third event fires the combo timeout (evaluated against the window back
entry, before the event is recorded), so the final state is total 3,
combo 1, score 4. -/
theorem C2_timeout_sequence :
    timedOut (runEvents AggState.init [0, 3/10]) (3/2) ∧
    (runEvents AggState.init [0, 3/10, 3/2]).stats = ⟨3, 1, 4⟩ := by
  constructor
  · refine ⟨3/10, ?_, by norm_num⟩
    norm_num [runEvents, onEvent, AggState.init, Stats.init, CircularBuffer.new,
      CircularBuffer.push]
  · norm_num [runEvents, onEvent, AggState.init, Stats.init, CircularBuffer.new,
      CircularBuffer.push]

/-- C3: with Press events at 0 s, 0.3 s and 0.6 s no gap exceeds 1.0 s, so
no reset occurs and the final state is total 3, combo 3, score 6. -/
theorem C3_no_timeout_sequence :
    (runEvents AggState.init [0, 3/10, 3/5]).stats = ⟨3, 3, 6⟩ := by
  norm_num [runEvents, onEvent, AggState.init, Stats.init, CircularBuffer.new,
    CircularBuffer.push]

/-- C4: every processed event increments total by exactly one (so total
never decreases), either fires the timeout reset and leaves combo at
0 + 1 = 1 or increments combo by one, and adds the post-increment combo to
score (so score never decreases). -/
theorem C4_event_effects (s : AggState) (now : Time) :
    (onEvent s now).stats.total = s.stats.total + 1 ∧
    s.stats.total ≤ (onEvent s now).stats.total ∧
    ((timedOut s now ∧ (onEvent s now).stats.combo = 0 + 1) ∨
      (onEvent s now).stats.combo = s.stats.combo + 1) ∧
    (onEvent s now).stats.score = s.stats.score + (onEvent s now).stats.combo ∧
    s.stats.score ≤ (onEvent s now).stats.score := by
  unfold onEvent timedOut
  cases hq : s.buf.queue.getLast? with
  | none => simp
  | some d =>
    by_cases hgap : (1 : ℚ) < now - d
    · simp [hgap]
    · simp [hgap]

/-- C5: for every non-empty window the presentation stage computes the raw
sum S of the deltas to the front timestamp over all retained timestamps
except the front, reports S divided by (window length - 1) when S exceeds
0.01 s and the undivided S otherwise; for three timestamps the sum is
(t1 - t0) + (t2 - t0) and the divisor is 2. -/
theorem C5_presentation_avg :
    (∀ (t0 : Time) (rest : List Time) (stats : Stats),
      ∃ f, render ⟨8, t0 :: rest⟩ stats = some f ∧
        f.avg = if 1/100 < (rest.map fun e => e - t0).sum
          then (rest.map fun e => e - t0).sum / (((t0 :: rest).length - 1 : ℕ) : ℚ)
          else (rest.map fun e => e - t0).sum) ∧
    ∀ (t0 t1 t2 : Time) (stats : Stats),
      ∃ f, render ⟨8, [t0, t1, t2]⟩ stats = some f ∧
        f.avg = if 1/100 < (t1 - t0) + (t2 - t0)
          then ((t1 - t0) + (t2 - t0)) / 2
          else (t1 - t0) + (t2 - t0) := by
  constructor
  · intro t0 rest stats
    refine ⟨_, rfl, ?_⟩
    simp [render]
  · intro t0 t1 t2 stats
    refine ⟨_, rfl, ?_⟩
    simp [render]

/-- C6: with exactly one retained timestamp the raw sum is the empty sum 0,
the threshold branch is not taken (no division by the zero value of
window length - 1), and the stage still produces a frame. -/
theorem C6_single_entry (t0 : Time) (stats : Stats) :
    ∃ f, render ⟨8, [t0]⟩ stats = some f ∧
      f.avg = (([t0].drop 1).map fun e => e - t0).sum ∧
      f.avg = 0 ∧
      ¬ 1/100 < (([t0].drop 1).map fun e => e - t0).sum ∧
      (([t0] : List Time).length - 1 : ℕ) = 0 := by
  refine ⟨_, rfl, ?_, ?_, ?_, ?_⟩ <;> simp [render]

/-- C7 counterexample: with an empty window and zeroed stats the
presentation stage emits no frame lines at all, so in particular no frame
containing the Stats fields, contrary to the claim. -/
theorem C7_counterexample :
    ¬ ∃ f, render (CircularBuffer.new 8) Stats.init = some f := by
  simp [render, CircularBuffer.new]

/-- C7 amended: whenever the window is empty the presentation stage emits a
frame with no timing metrics and no Stats lines either; beyond the cleared
grid the frame is blank, because the Stats prints sit inside the same
front-timestamp branch as the timing metrics. -/
theorem C7_empty_window_blank (buf : CircularBuffer Time) (stats : Stats)
    (h : buf.queue = []) : render buf stats = none := by
  unfold render
  split
  · rfl
  · rename_i start rest heq
    rw [h] at heq
    cases heq

/-- Witness for the amended C7 at the startup state. -/
theorem C7_empty_window_blank_witness :
    render (CircularBuffer.new 8 : CircularBuffer Time) Stats.init = none :=
  C7_empty_window_blank (CircularBuffer.new 8) Stats.init rfl

/-- C8: raw keys absent from the keymap (such as the character q under the
default keymap) publish no semantic event, and a tick whose raw keys are
all unmapped leaves the stats and the window unchanged (the reader cursor
hypothesis states that no events from earlier ticks are still pending,
which holds in every reachable world). -/
theorem C8_unmapped_keys (inputs : List (RawInput × Time)) (w : World)
    (hmap : ∀ p ∈ inputs, Keymap.init.get p.1 = none)
    (hr : w.reader = some w.channel.length ∨ w.reader = none) :
    Keymap.init.get (RawInput.Character 'q') = none ∧
    captureStage Keymap.init (inputs.map Prod.fst) = [] ∧
    publishTimed Keymap.init inputs = [] ∧
    (tick Keymap.init inputs w).1.agg = w.agg := by
  have hpub : publishTimed Keymap.init inputs = [] := by
    rw [publishTimed, List.filterMap_eq_nil_iff]
    intro p hp
    rw [hmap p hp]
    rfl
  refine ⟨rfl, ?_, hpub, ?_⟩
  · rw [captureStage, List.filterMap_map, List.filterMap_eq_nil_iff]
    intro p hp
    exact hmap p hp
  · unfold tick
    rw [hpub, List.append_nil]
    rcases hr with h | h <;> rw [h] <;> simp [List.drop_length]

/-- Witness for C8: a tick whose only raw key is the unmapped character q,
run from the startup world. -/
theorem C8_unmapped_keys_witness :
    ((∀ p ∈ [(RawInput.Character 'q', (0 : Time))], Keymap.init.get p.1 = none) ∧
      (World.init.reader = some World.init.channel.length ∨ World.init.reader = none)) ∧
    (Keymap.init.get (RawInput.Character 'q') = none ∧
      captureStage Keymap.init ([(RawInput.Character 'q', (0 : Time))].map Prod.fst) = [] ∧
      publishTimed Keymap.init [(RawInput.Character 'q', (0 : Time))] = [] ∧
      (tick Keymap.init [(RawInput.Character 'q', (0 : Time))] World.init).1.agg
        = World.init.agg) :=
  ⟨⟨by intro p hp; simp at hp; rw [hp]; rfl, Or.inr rfl⟩,
    C8_unmapped_keys _ _ (by intro p hp; simp at hp; rw [hp]; rfl) (Or.inr rfl)⟩

/-- C9 counterexample: on the very first tick the aggregation stage
registers its channel reader only after the capture stage has already
published, so a mapped key pressed in the first tick is published but never
aggregated: total stays 0 although one Press event was published in that
tick. -/
theorem C9_first_tick_drop :
    captureStage Keymap.init [RawInput.Character 'x'] = [InputEvent.Input] ∧
    publishTimed Keymap.init [(RawInput.Character 'x', (0 : Time))]
      = [(InputEvent.Input, (0 : Time))] ∧
    (tick Keymap.init [(RawInput.Character 'x', (0 : Time))] World.init).1.agg.stats.total
      = 0 := by
  exact ⟨rfl, rfl, rfl⟩

/-- C9 amended: per tick the stages run capture, then aggregation, then
presentation; on every tick at which the reader cursor is already
registered and current (every tick after the first), the aggregator
consumes exactly the published events of that tick, once each and in
publish order, and the presentation stage reads the post-aggregation state
of the same tick; the cursor stays current for the next tick.  Events
published in the very first tick are dropped at reader registration. -/
theorem C9_tick_order (km : Keymap) (inputs : List (RawInput × Time)) (w : World)
    (h : w.reader = some w.channel.length) :
    (tick km inputs w).1.agg
      = (publishTimed km inputs).foldl (fun st p => onEvent st p.2) w.agg ∧
    (tick km inputs w).2
      = render (tick km inputs w).1.agg.buf (tick km inputs w).1.agg.stats ∧
    (tick km inputs w).1.reader = some (tick km inputs w).1.channel.length := by
  unfold tick
  rw [h]
  simp only [List.drop_left]
  exact ⟨trivial, trivial, trivial⟩

/-- Witness for the amended C9: a second-tick world with a current reader
cursor, one mapped key. -/
theorem C9_tick_order_witness :
    ((⟨[(InputEvent.Input, 0)], some 1, AggState.init⟩ : World).reader
        = some (⟨[(InputEvent.Input, 0)], some 1, AggState.init⟩ : World).channel.length) ∧
    ((tick Keymap.init [(RawInput.Character 'b', (2 : Time))]
          ⟨[(InputEvent.Input, 0)], some 1, AggState.init⟩).1.agg
        = (publishTimed Keymap.init [(RawInput.Character 'b', (2 : Time))]).foldl
            (fun st p => onEvent st p.2)
            (⟨[(InputEvent.Input, 0)], some 1, AggState.init⟩ : World).agg ∧
      (tick Keymap.init [(RawInput.Character 'b', (2 : Time))]
          ⟨[(InputEvent.Input, 0)], some 1, AggState.init⟩).2
        = render
            (tick Keymap.init [(RawInput.Character 'b', (2 : Time))]
              ⟨[(InputEvent.Input, 0)], some 1, AggState.init⟩).1.agg.buf
            (tick Keymap.init [(RawInput.Character 'b', (2 : Time))]
              ⟨[(InputEvent.Input, 0)], some 1, AggState.init⟩).1.agg.stats ∧
      (tick Keymap.init [(RawInput.Character 'b', (2 : Time))]
          ⟨[(InputEvent.Input, 0)], some 1, AggState.init⟩).1.reader
        = some (tick Keymap.init [(RawInput.Character 'b', (2 : Time))]
            ⟨[(InputEvent.Input, 0)], some 1, AggState.init⟩).1.channel.length) :=
  ⟨rfl, C9_tick_order Keymap.init [(RawInput.Character 'b', (2 : Time))]
    ⟨[(InputEvent.Input, 0)], some 1, AggState.init⟩ rfl⟩

/-- C10: in every state reachable from the zeroed initial state by
aggregated Press events, combo is at most total and score is at least
total; moreover the next event always adds at least one to score, since
combo is incremented to at least one before being added. -/
theorem C10_reachable_invariant (ts : List Time) (t : Time) :
    (runEvents AggState.init ts).stats.combo ≤ (runEvents AggState.init ts).stats.total ∧
    (runEvents AggState.init ts).stats.total ≤ (runEvents AggState.init ts).stats.score ∧
    (runEvents AggState.init ts).stats.score + 1
      ≤ (onEvent (runEvents AggState.init ts) t).stats.score := by
  obtain ⟨h1, h2⟩ := runEvents_invariant ts AggState.init (by rfl) (by rfl)
  obtain ⟨htot, hcombo, hscore, hpos⟩ := onEvent_stats (runEvents AggState.init ts) t
  exact ⟨h1, h2, by omega⟩
